import Mathlib

/-!
Verification of the post-snap capture/classify/sync core.

The development shallowly embeds the core of the extension:
the authentication classifier, the URL normalizer and matchers, the
bounded capture buffer with its live-capture session, and the sync
orchestrator operations, and proves the specified properties about them.

Strings are processed as their character lists.  The platform URL
parser (WHATWG, exposed as the JS URL constructor) is modelled by
parseUrl below, a restricted model covering scheme recognition,
special-scheme authority parsing (host, userinfo, port with default
port elision) and path extraction, and opaque paths for non-special
schemes; percent-encoding, dot-segment removal and IDNA are outside
the model and outside every input used to settle a claim.
-/

namespace PostSnap

set_option maxRecDepth 100000

/-- Character class of the JS regex [0-9a-f] under the i flag. -/
def isHexChar (c : Char) : Bool :=
  c.isDigit || ('a' ≤ c && c ≤ 'f') || ('A' ≤ c && c ≤ 'F')

/-- Character class of the JS regex [a-z0-9_-] under the i flag. -/
def isIdChar (c : Char) : Bool :=
  c.isAlpha || c.isDigit || c = '_' || c = '-'

/-- Substring containment on character lists (JS String.includes, and a
test by a regex that is a literal string). -/
def containsSub : List Char → List Char → Bool
  | [], pat => pat.isEmpty
  | c :: t, pat => pat.isPrefixOf (c :: t) || containsSub t pat

/-- JS s.includes(pat). -/
def strContains (s pat : String) : Bool :=
  containsSub s.toList pat.toList

/-- JS s.startsWith(pre). -/
def jsStarts (s pre : String) : Bool :=
  pre.toList.isPrefixOf s.toList

/-- JS s.substring(n) for ASCII content. -/
def jsDrop (s : String) (n : Nat) : String :=
  String.mk (s.toList.drop n)

/-- JS s.trim() (whitespace at both ends removed). -/
def jsTrim (s : String) : String :=
  String.mk (((s.toList.dropWhile Char.isWhitespace).reverse.dropWhile
    Char.isWhitespace).reverse)

/-- ASCII lower-casing of one character. -/
def lowerChar (c : Char) : Char :=
  if 'A' ≤ c && c ≤ 'Z' then Char.ofNat (c.toNat + 32) else c

/-- ASCII upper-casing of one character. -/
def upperChar (c : Char) : Char :=
  if 'a' ≤ c && c ≤ 'z' then Char.ofNat (c.toNat - 32) else c

/-- JS s.toLowerCase() restricted to ASCII (every input used here is
ASCII). -/
def lowerStr (s : String) : String :=
  String.mk (s.toList.map lowerChar)

/-- JS s.toUpperCase() restricted to ASCII. -/
def upperStr (s : String) : String :=
  String.mk (s.toList.map upperChar)

/-- src/shared/types.ts: AuthType. -/
inductive AuthType where
  | bearer
  | basic
  | apikey
  | cookie
  | none
deriving DecidableEq, Repr

/-- src/shared/types.ts: RequestHeader. -/
structure RequestHeader where
  key : String
  value : String
deriving DecidableEq, Repr

/-- src/utils/authDetector.ts: AuthInfo. -/
structure AuthInfo where
  type : AuthType
  value : Option String
deriving DecidableEq, Repr

/-- src/utils/authDetector.ts: the fixed session cookie patterns, all
tested case-insensitively (lower-cased here; the haystack is lowered at
the use site). -/
def sessionCookiePatterns : List String :=
  ["sessionid=", "session=", "sid=", "connect.sid=", "phpsessid=",
   "jsessionid=", "asp.net_sessionid="]

/-- src/utils/authDetector.ts: the some-pattern-matches test on a
Cookie header value. -/
def hasSessionCookie (value : String) : Bool :=
  sessionCookiePatterns.any (fun p => strContains (lowerStr value) p)

/-- src/utils/authDetector.ts: detectAuthType.  Scans headers in order;
inside the Authorization branch the Bearer and Basic prefixes are
checked, and a non-matching Authorization header falls through to the
api-key and cookie checks (which its name cannot satisfy) and then to
the next header, exactly as in the source loop. -/
def detectAuthType : List RequestHeader → AuthInfo
  | [] => { type := AuthType.none, value := Option.none }
  | h :: rest =>
    let name := lowerStr h.key
    let value := h.value
    if name = "authorization" && jsStarts value "Bearer " then
      { type := AuthType.bearer, value := some (jsTrim (jsDrop value 7)) }
    else if name = "authorization" && jsStarts value "Basic " then
      { type := AuthType.basic, value := some (jsTrim (jsDrop value 6)) }
    else if name = "x-api-key" || name = "api-key" || name = "apikey" ||
        strContains name "api-key" || strContains name "apikey" then
      { type := AuthType.apikey, value := some value }
    else if name = "cookie" && hasSessionCookie value then
      { type := AuthType.cookie, value := some value }
    else detectAuthType rest

/-- Spec 4.1, per-header rule list, written independently of the source
loop: the first of the five rules that applies to a single header. -/
def classifyHeader (h : RequestHeader) : Option AuthInfo :=
  let name := lowerStr h.key
  if name = "authorization" && jsStarts h.value "Bearer " then
    some { type := AuthType.bearer, value := some (jsTrim (jsDrop h.value 7)) }
  else if name = "authorization" && jsStarts h.value "Basic " then
    some { type := AuthType.basic, value := some (jsTrim (jsDrop h.value 6)) }
  else if name = "x-api-key" || name = "api-key" || name = "apikey" ||
      strContains name "api-key" || strContains name "apikey" then
    some { type := AuthType.apikey, value := some h.value }
  else if name = "cookie" && hasSessionCookie h.value then
    some { type := AuthType.cookie, value := some h.value }
  else Option.none

/-- Spec 4.1: first match wins over the ordered header list, none
otherwise. -/
def detectAuthTypeSpec (hs : List RequestHeader) : AuthInfo :=
  (hs.findSome? classifyHeader).getD { type := AuthType.none, value := Option.none }

/-! ## The URL parser model -/

/-- Scheme characters per WHATWG (first character is checked separately
to be alphabetic). -/
def isSchemeChar (c : Char) : Bool :=
  c.isAlpha || c.isDigit || c = '+' || c = '-' || c = '.'

/-- The WHATWG special schemes. -/
def specialSchemes : List String :=
  ["http", "https", "ws", "wss", "ftp", "file"]

/-- Characters after the last at-sign (the WHATWG host begins after the
final userinfo delimiter); the whole list when no at-sign occurs. -/
def afterLastAt (l : List Char) : List Char :=
  l.foldl (fun acc c => if c = '@' then [] else acc ++ [c]) []

/-- Digits to a number, for port normalization. -/
def portDigitsToNat (l : List Char) : Nat :=
  l.foldl (fun n c => n * 10 + (c.toNat - 48)) 0

/-- Default ports elided from the host serialization. -/
def defaultPortOf (scheme : String) : Option Nat :=
  if scheme = "http" || scheme = "ws" then some 80
  else if scheme = "https" || scheme = "wss" then some 443
  else if scheme = "ftp" then some 21
  else Option.none

/-- Host (with non-default port) from an authority character list;
fails (URL constructor throws) on an empty special-scheme host or an
invalid port. -/
def parseHostPort (scheme : String) (special : Bool) (auth : List Char) :
    Option String :=
  let hp := afterLastAt auth
  let hostname := hp.takeWhile (fun c => c ≠ ':')
  let low := lowerStr (String.mk hostname)
  if special && hostname.isEmpty then Option.none
  else
    match hp.drop hostname.length with
    | [] => some low
    | _ :: ps =>
      if ps.isEmpty then some low
      else if ps.all Char.isDigit then
        let pn := portDigitsToNat ps
        if pn > 65535 then Option.none
        else if defaultPortOf scheme = some pn then some low
        else some (low ++ ":" ++ toString pn)
      else Option.none

/-- Parsed URL parts used by the core: scheme, host (as the JS url.host,
port included when not the default) and pathname. -/
structure UrlParts where
  scheme : String
  host : String
  pathname : String
deriving DecidableEq, Repr

/-- Authority terminators of a special-scheme URL. -/
def isAuthEnd (c : Char) : Bool :=
  c = '/' || c = '\\' || c = '?' || c = '#'

/-- Query or fragment start. -/
def isQueryOrFrag (c : Char) : Bool :=
  c = '?' || c = '#'

/-- The serialized pathname of a special-scheme URL from the remainder
after the authority: empty serializes as a single slash, and backslashes
are treated as slashes. -/
def specialRemPath (rem : List Char) : List Char :=
  let pathRaw := rem.takeWhile (fun c => ! isQueryOrFrag c)
  if pathRaw.isEmpty then ['/']
  else pathRaw.map (fun c => if c = '\\' then '/' else c)

/-- Model of the JS URL constructor (throwing modelled as Option.none).
Special schemes skip any run of slashes and backslashes after the
colon, then read an authority; an absent or empty path serializes as a
single slash and backslashes in the path are normalized to slashes.  A
non-special scheme followed by a double slash reads an authority; any
other non-special remainder is an opaque path, returned verbatim by the
pathname getter. -/
def parseAfterScheme (scheme : String) (afterColon : List Char) : Option UrlParts :=
  if specialSchemes.contains scheme then
    let afterSlashes := afterColon.dropWhile (fun c => c = '/' || c = '\\')
    let auth := afterSlashes.takeWhile (fun c => ! isAuthEnd c)
    let rem := afterSlashes.dropWhile (fun c => ! isAuthEnd c)
    match parseHostPort scheme true auth with
    | Option.none => Option.none
    | some host =>
      some { scheme := scheme, host := host,
             pathname := String.mk (specialRemPath rem) }
  else
    match afterColon with
    | '/' :: '/' :: afterAuth =>
      let auth := afterAuth.takeWhile (fun c => ! (c = '/' || isQueryOrFrag c))
      let rem := afterAuth.dropWhile (fun c => ! (c = '/' || isQueryOrFrag c))
      match parseHostPort scheme false auth with
      | Option.none => Option.none
      | some host =>
        some { scheme := scheme, host := host,
               pathname := String.mk (rem.takeWhile (fun c => ! isQueryOrFrag c)) }
    | _ =>
      some { scheme := scheme, host := "",
             pathname := String.mk (afterColon.takeWhile (fun c => ! isQueryOrFrag c)) }

/-- Model of the JS URL constructor, entry point: a scheme run starting
with a letter and followed by a colon, then the scheme-dependent
remainder as in parseAfterScheme. -/
def parseUrl (s : String) : Option UrlParts :=
  match s.toList with
  | [] => Option.none
  | c0 :: t0 =>
    if ! c0.isAlpha then Option.none
    else
      let l := c0 :: t0
      let run := l.takeWhile isSchemeChar
      match l.drop run.length with
      | ':' :: afterColon => parseAfterScheme (lowerStr (String.mk run)) afterColon
      | _ => Option.none

/-! ## The URL normalizer -/

/-- Split a character list at every slash; the first element is the run
before the first slash (empty for a rooted path), and the list always
has at least one element. -/
def splitOnSlash : List Char → List (List Char)
  | [] => [[]]
  | c :: rest =>
    if c = '/' then [] :: splitOnSlash rest
    else
      match splitOnSlash rest with
      | [] => [[c]]
      | h :: t => (c :: h) :: t

/-- The replacement text of every normalization rule. -/
def idList : List Char := [':', 'i', 'd']

/-- Exactly n leading hex characters consumed (the JS bounded-repeat
hex atom), returning the remainder. -/
def chunkHex (n : Nat) (l : List Char) : Option (List Char) :=
  let t := l.take n
  if t.length = n && t.all isHexChar then some (l.drop n) else Option.none

/-- A literal dash consumed. -/
def matchDash : List Char → Option (List Char)
  | '-' :: r => some r
  | _ => Option.none

/-- The canonical 8-4-4-4-12 UUID shape consumed from the front,
returning the remainder. -/
def matchUuid (l : List Char) : Option (List Char) :=
  (chunkHex 8 l).bind (fun r1 => (matchDash r1).bind (fun r2 =>
    (chunkHex 4 r2).bind (fun r3 => (matchDash r3).bind (fun r4 =>
      (chunkHex 4 r4).bind (fun r5 => (matchDash r5).bind (fun r6 =>
        (chunkHex 4 r6).bind (fun r7 => (matchDash r7).bind (fun r8 =>
          chunkHex 12 r8))))))))

/-- Rule 1 on the run following one slash: a UUID-shaped front becomes
the placeholder; the regex is not anchored to the segment end, so any
remainder survives. -/
def uuidChunk (c : List Char) : List Char :=
  match matchUuid c with
  | some r => idList ++ r
  | Option.none => c

/-- Rule 2 on the run following one slash: a nonempty maximal digit
front becomes the placeholder. -/
def numChunk (c : List Char) : List Char :=
  if (c.takeWhile Char.isDigit).isEmpty then c
  else idList ++ c.dropWhile Char.isDigit

/-- Rule 3 on the run following one slash: a maximal front of at least
eight identifier characters becomes the placeholder. -/
def alnumChunk (c : List Char) : List Char :=
  if 8 ≤ (c.takeWhile isIdChar).length then idList ++ c.dropWhile isIdChar
  else c

/-- Rule 4 on the run following one slash: a 24-hex front becomes the
placeholder. -/
def hex24Chunk (c : List Char) : List Char :=
  match chunkHex 24 c with
  | some r => idList ++ r
  | Option.none => c

/-- One global-regex replacement pass: every rule of the source anchors
at a slash, so a pass maps the text between consecutive slashes (which
the scan of a JS global regex visits left to right, resuming after each
replacement) chunk by chunk, leaving the run before the first slash
untouched. -/
def mapChunks (rule : List Char → List Char) (l : List Char) : List Char :=
  match splitOnSlash l with
  | [] => l
  | f :: cs => f ++ (cs.map (fun c => '/' :: rule c)).flatten

/-- src/utils/urlMatcher.ts: the four replace passes of normalizeUrl in
source order, each on the previous pass's output. -/
def applyRules (p : String) : String :=
  String.mk (mapChunks hex24Chunk (mapChunks alnumChunk (mapChunks numChunk
    (mapChunks uuidChunk p.toList))))

/-- src/utils/urlMatcher.ts: normalizeUrl.  Parse, take the pathname,
apply the four passes; an unparseable URL is returned unchanged. -/
def normalizeUrl (url : String) : String :=
  match parseUrl url with
  | some u => applyRules u.pathname
  | Option.none => url

/-- The four rules as the specification sentence words them, applied to
a whole path segment: a segment replaced only when it is entirely of
the described shape.  Second definition for the refinement comparison,
following the spec's words rather than the source. -/
def segRules (c : List Char) : List Char :=
  let c1 := if (matchUuid c).any (fun r => r.isEmpty) then idList else c
  let c2 := if ! c1.isEmpty && c1.all Char.isDigit then idList else c1
  let c3 := if 8 ≤ c2.length && c2.all isIdChar then idList else c2
  if c3.length = 24 && c3.all isHexChar then idList else c3

/-- Whole-segment reading of the normalizer, following the spec's words
(for comparison with normalizeUrl). -/
def normalizeUrlSegSpec (url : String) : String :=
  match parseUrl url with
  | some u => String.mk (mapChunks segRules u.pathname.toList)
  | Option.none => url

/-! ## The remote collection document tree -/

/-- A Postman request URL: either a raw string or a structured object
whose raw field the extractor returns. -/
inductive PUrl where
  | str (s : String)
  | obj (raw : String)
deriving DecidableEq, Repr

/-- src/utils/urlMatcher.ts: extractPostmanUrl. -/
def extractPostmanUrl : PUrl → String
  | .str s => s
  | .obj raw => raw

/-- The request part of a tree node: method (absent defaults to GET in
the method-aware matcher), header list and URL (an absent URL makes the
extractor throw inside the per-item try, so the node is skipped). -/
structure PReq where
  method : Option String
  header : List RequestHeader
  url : Option PUrl
deriving DecidableEq, Repr

mutual
/-- One node of the remote document: possible children (the source
checks item.item, an absent array behaving as no children) and a
possible request part; a node may carry both. -/
inductive PItem where
  | mk (name : String) (children : PForest) (request : Option PReq)
deriving DecidableEq, Repr
/-- A sequence of sibling nodes in tree order. -/
inductive PForest where
  | nil
  | cons (i : PItem) (rest : PForest)
deriving DecidableEq, Repr
end

/-- Node name accessor. -/
def PItem.name : PItem → String
  | .mk n _ _ => n

/-- Node request accessor. -/
def PItem.request : PItem → Option PReq
  | .mk _ _ r => r

/-- Whether an item's request extracts to a URL whose normalization
equals the already-normalized captured URL (false when there is no
request or no extractable URL: such nodes are skipped). -/
def reqMatches (norm : String) : Option PReq → Bool
  | Option.none => false
  | some r =>
    match r.url with
    | Option.none => false
    | some u => normalizeUrl (extractPostmanUrl u) == norm

mutual
/-- src/utils/urlMatcher.ts: the loop of findMatchingRequest over a
sibling list: per item, search its children first, then test the item's
own request, then move to the next sibling. -/
def searchF (norm : String) : PForest → Option PItem
  | .nil => Option.none
  | .cons i rest =>
    match searchOne norm i with
    | some m => some m
    | Option.none => searchF norm rest
/-- One iteration of the findMatchingRequest loop body. -/
def searchOne (norm : String) : PItem → Option PItem
  | .mk n cs r =>
    match searchF norm cs with
    | some m => some m
    | Option.none =>
      if reqMatches norm r then some (.mk n cs r) else Option.none
end

/-- src/utils/urlMatcher.ts: findMatchingRequest. -/
def findMatchingRequest (capturedUrl : String) (items : PForest) : Option PItem :=
  searchF (normalizeUrl capturedUrl) items

/-- The effective HTTP method of a tree request: upper-cased, with an
absent or empty method read as GET (the source's or-default). -/
def effMethod (m : Option String) : String :=
  match m with
  | Option.none => "GET"
  | some s => if upperStr s = "" then "GET" else upperStr s

/-- URL-and-method test of findMatchingRequestWithMethod: URL pattern
as in reqMatches plus case-insensitive method equality. -/
def reqMatchesM (norm methodUpper : String) : Option PReq → Bool
  | Option.none => false
  | some r =>
    match r.url with
    | Option.none => false
    | some u =>
      (normalizeUrl (extractPostmanUrl u) == norm) && (methodUpper == effMethod r.method)

mutual
/-- src/utils/urlMatcher.ts: the recursion of
findMatchingRequestWithMethod, children first, then the node itself. -/
def searchMF (norm methodUpper : String) : PForest → Option PItem
  | .nil => Option.none
  | .cons i rest =>
    match searchMOne norm methodUpper i with
    | some m => some m
    | Option.none => searchMF norm methodUpper rest
/-- One iteration of the findMatchingRequestWithMethod loop body. -/
def searchMOne (norm methodUpper : String) : PItem → Option PItem
  | .mk n cs r =>
    match searchMF norm methodUpper cs with
    | some m => some m
    | Option.none =>
      if reqMatchesM norm methodUpper r then some (.mk n cs r) else Option.none
end

/-- src/utils/urlMatcher.ts: findMatchingRequestWithMethod. -/
def findMatchingRequestWithMethod (capturedUrl method : String) (items : PForest) :
    Option PItem :=
  searchMF (normalizeUrl capturedUrl) (upperStr method) items

/-- Whether an item's request has a URL parsing to the given host (the
source compares the platform-parsed host for equality and skips nodes
whose URL does not parse). -/
def reqHostMatches (host : String) : Option PReq → Bool
  | Option.none => false
  | some r =>
    match r.url with
    | Option.none => false
    | some u =>
      match parseUrl (extractPostmanUrl u) with
      | some p => p.host == host
      | Option.none => false

mutual
/-- src/utils/urlMatcher.ts: the collection pass of
findAllRequestsForHost, children first, then the node itself. -/
def collectHostF (host : String) : PForest → List PItem
  | .nil => []
  | .cons i rest => collectHostOne host i ++ collectHostF host rest
/-- One iteration of the findAllRequestsForHost loop body. -/
def collectHostOne (host : String) : PItem → List PItem
  | .mk n cs r =>
    collectHostF host cs ++
      (if reqHostMatches host r then [PItem.mk n cs r] else [])
end

/-- src/utils/urlMatcher.ts: findAllRequestsForHost. -/
def findAllRequestsForHost (host : String) (items : PForest) : List PItem :=
  collectHostF host items

/-! ## Flattened traversal order -/

mutual
/-- The request-carrying nodes of a forest in the order the searches
visit them: within one node, its descendants first, then the node
itself. -/
def visitOrderF : PForest → List PItem
  | .nil => []
  | .cons i rest => visitOrderOne i ++ visitOrderF rest
/-- Visit order below and at one node. -/
def visitOrderOne : PItem → List PItem
  | .mk n cs r =>
    visitOrderF cs ++ (if (r : Option PReq).isSome then [PItem.mk n cs r] else [])
end

mutual
/-- The request-carrying nodes of a forest in depth-first pre-order:
a node before its descendants. -/
def preOrderF : PForest → List PItem
  | .nil => []
  | .cons i rest => preOrderOne i ++ preOrderF rest
/-- Pre-order at and below one node. -/
def preOrderOne : PItem → List PItem
  | .mk n cs r =>
    (if (r : Option PReq).isSome then [PItem.mk n cs r] else []) ++ preOrderF cs
end

mutual
/-- The spec's well-formedness of a remote document (section 3): every
node is a folder or a leaf request, never both. -/
def properF : PForest → Bool
  | .nil => true
  | .cons i rest => properOne i && properF rest
/-- Well-formedness of one node and its descendants. -/
def properOne : PItem → Bool
  | .mk _ cs r => (!(r : Option PReq).isSome || (cs matches PForest.nil)) && properF cs
end

mutual
/-- Number of request-carrying nodes of a forest. -/
def leafCountF : PForest → Nat
  | .nil => 0
  | .cons i rest => leafCountOne i + leafCountF rest
/-- Number of request-carrying nodes at and below one node. -/
def leafCountOne : PItem → Nat
  | .mk _ cs r => (if (r : Option PReq).isSome then 1 else 0) + leafCountF cs
end

/-! ## The sync orchestrator -/

/-- src/shared/types.ts: CapturedRequest (the body is irrelevant to
every verified claim and is carried as an opaque optional string). -/
structure CapturedRequest where
  id : String
  timestamp : Nat
  method : String
  url : String
  headers : List RequestHeader
  body : Option String
  authType : AuthType
  authValue : Option String
deriving DecidableEq, Repr

/-- src/background/postmanApi.ts, updateTokenInCollection step 3: the
new Authorization value.  A bearer credential is re-prefixed; the JS
template literal stringifies an absent value as the text undefined.
Other types use the raw credential, an absent one becoming the empty
string through the or-else-empty. -/
def newAuthValue (t : AuthType) (v : Option String) : String :=
  if t = AuthType.bearer then
    "Bearer " ++ (match v with | some s => s | Option.none => "undefined")
  else
    match v with
    | some s => s
    | Option.none => ""

/-- Replace the value of the first header named authorization
(case-insensitively), keeping its key; append an Authorization header
when none exists (the source's findIndex-set-or-push). -/
def setAuthHeader (v : String) : List RequestHeader → List RequestHeader
  | [] => [{ key := "Authorization", value := v }]
  | h :: t =>
    if lowerStr h.key = "authorization" then { key := h.key, value := v } :: t
    else h :: setAuthHeader v t

/-- The in-place header mutation of updateTokenInCollection on the one
matched request. -/
def setAuthOnReq (v : String) (r : PReq) : PReq :=
  { r with header := setAuthHeader v r.header }

mutual
/-- Functional rendering of mutating, inside the tree, the node that
findMatchingRequest returns: the first match in visit order is rebuilt
with its request transformed; the updated tree and the updated node are
returned. -/
def updFirstF (norm : String) (g : PReq → PReq) : PForest → Option (PForest × PItem)
  | .nil => Option.none
  | .cons i rest =>
    match updFirstOne norm g i with
    | some (i2, m) => some (.cons i2 rest, m)
    | Option.none =>
      match updFirstF norm g rest with
      | some (rest2, m) => some (.cons i rest2, m)
      | Option.none => Option.none
/-- Update below or at one node, children first. -/
def updFirstOne (norm : String) (g : PReq → PReq) : PItem → Option (PItem × PItem)
  | .mk n cs r =>
    match updFirstF norm g cs with
    | some (cs2, m) => some (.mk n cs2 r, m)
    | Option.none =>
      if reqMatches norm r then
        match r with
        | some req => some (.mk n cs (some (g req)), .mk n cs (some (g req)))
        | Option.none => Option.none
      else Option.none
end

mutual
/-- Functional rendering of the bulk mutation of updateTokenForHost:
every node whose request URL parses to the target host is rebuilt with
its request transformed. -/
def updHostF (host : String) (g : PReq → PReq) : PForest → PForest
  | .nil => .nil
  | .cons i rest => .cons (updHostOne host g i) (updHostF host g rest)
/-- Bulk host update at and below one node. -/
def updHostOne (host : String) (g : PReq → PReq) : PItem → PItem
  | .mk n cs r =>
    .mk n (updHostF host g cs)
      (if reqHostMatches host r then
        (match r with
         | some req => some (g req)
         | Option.none => r)
       else r)
end

/-- src/background/postmanApi.ts: updateTokenInCollection, modelled as
a pure function from the fetched document to the list of documents
written back (the PUT calls, in order) and the result: the thrown error
message, or the matched request's name.  The fetch and the single PUT
are the only remote operations of the source function. -/
def updateTokenInCollection (r : CapturedRequest) (fetched : PForest) :
    List PForest × Except String String :=
  let norm := normalizeUrl r.url
  let nav := newAuthValue r.authType r.authValue
  match updFirstF norm (setAuthOnReq nav) fetched with
  | Option.none =>
    ([], Except.error "No matching request found in collection. The URL pattern does not match any existing requests.")
  | some (doc, m) => ([doc], Except.ok m.name)

/-- src/shared/types.ts: BulkTokenUpdateResult. -/
structure BulkTokenUpdateResult where
  updatedCount : Nat
  totalMatched : Nat
  requestNames : List String
deriving DecidableEq, Repr

/-- src/background/postmanApi.ts: updateTokenForHost, modelled as the
list of documents written back and the result. -/
def updateTokenForHost (host : String) (authValue : String) (t : AuthType)
    (fetched : PForest) : List PForest × Except String BulkTokenUpdateResult :=
  let ms := findAllRequestsForHost host fetched
  if ms.isEmpty then
    ([], Except.error ("No requests found for host \"" ++ host ++ "\" in this collection."))
  else
    let nav := if t = AuthType.bearer then "Bearer " ++ authValue else authValue
    ([updHostF host (setAuthOnReq nav) fetched],
      Except.ok { updatedCount := ms.length, totalMatched := ms.length,
                  requestNames := ms.map PItem.name })

/-! ## The capture buffer and the live-capture session -/

/-- src/background/requestCapture.ts: MAX_REQUESTS. -/
def MAX_REQUESTS : Nat := 100

/-- src/background/requestCapture.ts: unshift the new request, then pop
the oldest (last) entry when the bound is exceeded. -/
def pushEvict (r : CapturedRequest) (buf : List CapturedRequest) :
    List CapturedRequest :=
  let grown := r :: buf
  if MAX_REQUESTS < grown.length then grown.dropLast else grown

/-- src/shared/types.ts: CaptureState (the callback reference is set
and cleared together with isCapturing and is folded into it). -/
structure CaptureState where
  isCapturing : Bool
  targetHost : Option String
  collectionId : Option String
  capturedCount : Nat
  syncedCount : Nat
deriving DecidableEq, Repr

/-- The idle session state. -/
def idleCapture : CaptureState :=
  { isCapturing := false, targetHost := Option.none, collectionId := Option.none,
    capturedCount := 0, syncedCount := 0 }

/-- src/background/requestCapture.ts: startCapture. -/
def startCapture (host collectionId : String) : CaptureState :=
  { isCapturing := true, targetHost := some host, collectionId := some collectionId,
    capturedCount := 0, syncedCount := 0 }

/-- src/background/requestCapture.ts: stopCapture returns a snapshot of
the final state and resets to idle (clearing the callback). -/
def stopCapture (s : CaptureState) : CaptureState × CaptureState :=
  (s, idleCapture)

/-- src/background/requestCapture.ts: incrementSyncedCount, called by
the session callback after a successful remote upsert. -/
def incrementSyncedCount (s : CaptureState) : CaptureState :=
  { s with syncedCount := s.syncedCount + 1 }

/-- The buffer and session state touched by the header event listener. -/
structure SysState where
  buffer : List CapturedRequest
  cap : CaptureState
deriving DecidableEq, Repr

/-- src/background/requestCapture.ts: the header event listener body
after filtering: buffer the request with eviction; then, when its URL
parses, if the session is armed for exactly its host, increment
capturedCount and hand the request to the sync callback.  The callback
runs fire-and-forget; syncOk records whether its remote upsert
eventually succeeded, in which case it increments syncedCount (an
unparseable URL skips the session block entirely). -/
def recordRequest (r : CapturedRequest) (syncOk : Bool) (s : SysState) : SysState :=
  let buf := pushEvict r s.buffer
  let cap :=
    match parseUrl r.url with
    | some p =>
      if s.cap.isCapturing && (s.cap.targetHost == some p.host) then
        let bumped := { s.cap with capturedCount := s.cap.capturedCount + 1 }
        if syncOk then incrementSyncedCount bumped else bumped
      else s.cap
    | Option.none => s.cap
  { buffer := buf, cap := cap }

/-- A node with its request part transformed (what the in-place
mutation of one matched node does to that node). -/
def mapItemReq (g : PReq → PReq) : PItem → PItem
  | .mk n cs r => .mk n cs (r.map g)

/-- One capture event folded into the system state: the request and
whether its fire-and-forget sync later succeeded. -/
def stepEvent (s : SysState) (e : CapturedRequest × Bool) : SysState :=
  recordRequest e.1 e.2 s

/-- Whether a captured event's URL parses to the armed target host. -/
def matchesTargetHost (h : String) (e : CapturedRequest × Bool) : Bool :=
  match parseUrl e.1.url with
  | some p => p.host == h
  | Option.none => false

/-! ## Concrete fixtures used by the examples and witnesses -/

/-- A leaf whose URL ends in a numeric id. -/
def exLeaf42 : PItem :=
  .mk "Get item" .nil
    (some { method := some "GET", header := [],
            url := some (.str "https://api.x.com/items/42") })

/-- The leaf nested inside one folder. -/
def exTreeC4 : PForest :=
  .cons (.mk "Items" (.cons exLeaf42 .nil) Option.none) .nil

/-- An unextractable-URL leaf placed before a matching leaf. -/
def exTreeBad : PForest :=
  .cons (.mk "Broken" .nil
      (some { method := some "GET", header := [], url := Option.none }))
    (.cons exLeaf42 .nil)

/-- A request-bearing leaf for the bulk example. -/
def bulkLeaf (nm u : String) : PItem :=
  .mk nm .nil (some { method := some "GET", header := [], url := some (.str u) })

/-- The same leaf after its Authorization header is set. -/
def bulkLeafUpd (nm u v : String) : PItem :=
  .mk nm .nil
    (some { method := some "GET",
            header := [{ key := "Authorization", value := v }],
            url := some (.str u) })

/-- Three leaves for host api.h.com (one inside a folder) and one for
host api.y.com. -/
def exBulkTree : PForest :=
  .cons (bulkLeaf "h1" "https://api.h.com/a")
    (.cons (.mk "Folder" (.cons (bulkLeaf "h2" "https://api.h.com/b/1") .nil) Option.none)
      (.cons (bulkLeaf "y1" "https://api.y.com/c")
        (.cons (bulkLeaf "h3" "https://api.h.com/d") .nil)))

/-- The bulk tree after rotating the api.h.com credential. -/
def exBulkTreeUpd : PForest :=
  .cons (bulkLeafUpd "h1" "https://api.h.com/a" "Bearer tok")
    (.cons (.mk "Folder"
        (.cons (bulkLeafUpd "h2" "https://api.h.com/b/1" "Bearer tok") .nil) Option.none)
      (.cons (bulkLeaf "y1" "https://api.y.com/c")
        (.cons (bulkLeafUpd "h3" "https://api.h.com/d" "Bearer tok") .nil)))

/-- A leaf carrying an existing lower-cased authorization header. -/
def exLeafAuth : PItem :=
  .mk "Get user" .nil
    (some { method := some "GET",
            header := [{ key := "authorization", value := "Bearer old" }],
            url := some (.str "https://api.x.com/users/42") })

/-- One-leaf document for the update-by-match examples. -/
def exTreeC6 : PForest := .cons exLeafAuth .nil

/-- A captured bearer request with a credential. -/
def reqC6 : CapturedRequest :=
  { id := "1", timestamp := 0, method := "GET", url := "https://api.x.com/users/7",
    headers := [], body := Option.none, authType := AuthType.bearer,
    authValue := some "tok123" }

/-- A captured bearer request with an absent credential. -/
def reqBearerAbsent : CapturedRequest :=
  { reqC6 with authValue := Option.none }

/-- A captured request with descriptor none and absent credential. -/
def reqNoneAbsent : CapturedRequest :=
  { reqC6 with authType := AuthType.none, authValue := Option.none }

/-- 150 capture events over an unparseable URL. -/
def evs150 : List (CapturedRequest × Bool) :=
  (List.range 150).map (fun i =>
    ({ id := toString i, timestamp := i, method := "GET", url := "x",
       headers := [], body := Option.none, authType := AuthType.none,
       authValue := Option.none }, false))

/-- A minimal captured request at a given URL. -/
def capReq (u : String) : CapturedRequest :=
  { id := u, timestamp := 0, method := "GET", url := u, headers := [],
    body := Option.none, authType := AuthType.none, authValue := Option.none }

/-- Three api.h.com captures (two of which sync) and one for another
host. -/
def exEvsC8 : List (CapturedRequest × Bool) :=
  [(capReq "https://api.h.com/a", true), (capReq "https://api.h.com/b", false),
   (capReq "https://other.com/z", true), (capReq "https://api.h.com/c", true)]

/-! ## Supporting lemmas: character list scanning -/

theorem dropWhile_head_false (p : Char → Bool) :
    ∀ (l : List Char) (c : Char) (t : List Char), l.dropWhile p = c :: t → p c = false := by
  intro l
  induction l with
  | nil => intro c t h; simp at h
  | cons a l ih =>
    intro c t h
    rw [List.dropWhile_cons] at h
    split at h
    · exact ih c t h
    · injection h with h1 h2
      subst h1
      simp_all

theorem takeWhile_head (p : Char → Bool) (l : List Char) (c : Char) (t : List Char)
    (h : l.takeWhile p = c :: t) : (∃ t2, l = c :: t2) ∧ p c = true := by
  cases l with
  | nil => simp at h
  | cons a l2 =>
    rw [List.takeWhile_cons] at h
    split at h
    · injection h with h1 h2
      subst h1
      exact ⟨⟨l2, rfl⟩, by assumption⟩
    · simp at h

theorem specialRemPath_slash (l : List Char) :
    ∃ t, specialRemPath (l.dropWhile (fun c => ! isAuthEnd c)) = '/' :: t := by
  cases hr : (l.dropWhile (fun c => ! isAuthEnd c)).takeWhile (fun c => ! isQueryOrFrag c) with
  | nil => exact ⟨[], by simp [specialRemPath, hr]⟩
  | cons c t =>
    obtain ⟨⟨t2, hl2⟩, hq⟩ := takeWhile_head _ _ c t hr
    have hpc := dropWhile_head_false (fun c => ! isAuthEnd c) l c t2 hl2
    have hpc2 : isAuthEnd c = true := by
      simpa using hpc
    have hc : c = '/' ∨ c = '\\' := by
      simp only [isAuthEnd, Bool.or_eq_true, decide_eq_true_eq] at hpc2
      simp only [isQueryOrFrag, Bool.not_eq_true', Bool.or_eq_false_iff,
        decide_eq_false_iff_not] at hq
      rcases hpc2 with ((h | h) | h) | h
      · exact Or.inl h
      · exact Or.inr h
      · exact absurd h hq.1
      · exact absurd h hq.2
    refine ⟨t.map (fun c => if c = '\\' then '/' else c), ?_⟩
    rcases hc with rfl | rfl <;> simp [specialRemPath, hr]

theorem splitOnSlash_ne_nil : ∀ l : List Char, splitOnSlash l ≠ [] := by
  intro l
  cases l with
  | nil => simp [splitOnSlash]
  | cons c rest =>
    by_cases h : c = '/'
    · simp [splitOnSlash, h]
    · simp only [splitOnSlash, if_neg h]
      cases hs : splitOnSlash rest <;> simp

theorem mapChunks_slash (rule : List Char → List Char) (rest : List Char) :
    ∃ t, mapChunks rule ('/' :: rest) = '/' :: t := by
  obtain ⟨h0, t0, hsp⟩ : ∃ h0 t0, splitOnSlash rest = h0 :: t0 := by
    cases hs : splitOnSlash rest with
    | nil => exact absurd hs (splitOnSlash_ne_nil rest)
    | cons a b => exact ⟨a, b, rfl⟩
  refine ⟨rule h0 ++ (t0.map (fun c => '/' :: rule c)).flatten, ?_⟩
  have hsp2 : splitOnSlash ('/' :: rest) = [] :: h0 :: t0 := by
    simp [splitOnSlash, hsp]
  simp [mapChunks, hsp2]

theorem applyRules_slash (s : String) (t : List Char) (h : s.toList = '/' :: t) :
    ∃ t2, (applyRules s).toList = '/' :: t2 := by
  unfold applyRules
  rw [h]
  obtain ⟨t1, h1⟩ := mapChunks_slash uuidChunk t
  rw [h1]
  obtain ⟨t2, h2⟩ := mapChunks_slash numChunk t1
  rw [h2]
  obtain ⟨t3, h3⟩ := mapChunks_slash alnumChunk t2
  rw [h3]
  obtain ⟨t4, h4⟩ := mapChunks_slash hex24Chunk t3
  rw [h4]
  exact ⟨t4, rfl⟩

/-! ## Supporting lemmas: the parser and the normalizer -/

theorem parseAfterScheme_scheme (sc : String) (ac : List Char) (p : UrlParts)
    (h : parseAfterScheme sc ac = some p) : p.scheme = sc := by
  unfold parseAfterScheme at h
  split at h
  · dsimp only at h
    split at h
    · exact absurd h (by simp)
    · injection h with h2
      subst h2
      rfl
  · split at h
    · dsimp only at h
      split at h
      · exact absurd h (by simp)
      · injection h with h2
        subst h2
        rfl
    · injection h with h2
      subst h2
      rfl

theorem parseAfterScheme_special_slash (sc : String) (ac : List Char) (p : UrlParts)
    (h : parseAfterScheme sc ac = some p) (hs : specialSchemes.contains sc = true) :
    ∃ t, p.pathname.toList = '/' :: t := by
  unfold parseAfterScheme at h
  split at h
  · dsimp only at h
    split at h
    · exact absurd h (by simp)
    · injection h with h2
      subst h2
      exact specialRemPath_slash _
  · rename_i hneg
    exact absurd hs hneg

theorem parseUrl_cases (u : String) (p : UrlParts) (h : parseUrl u = some p) :
    ∃ sc ac, parseAfterScheme sc ac = some p := by
  unfold parseUrl at h
  split at h
  · exact absurd h (by simp)
  · split at h
    · exact absurd h (by simp)
    · dsimp only at h
      split at h
      · exact ⟨_, _, h⟩
      · exact absurd h (by simp)

theorem parseUrl_head_slash_none (s : String) (t : List Char) (h : s.toList = '/' :: t) :
    parseUrl s = Option.none := by
  unfold parseUrl
  rw [h]
  rfl

theorem norm_parse_none (u : String) (h : parseUrl u = Option.none) :
    normalizeUrl u = u := by
  unfold normalizeUrl
  rw [h]

theorem norm_parse_some (u : String) (p : UrlParts) (h : parseUrl u = some p) :
    normalizeUrl u = applyRules p.pathname := by
  unfold normalizeUrl
  rw [h]

/-! ## Supporting lemmas: tree traversal -/

mutual
theorem searchF_eq_find (norm : String) (f : PForest) :
    searchF norm f = (visitOrderF f).find? (fun j => reqMatches norm j.request) := by
  cases f with
  | nil => rfl
  | cons i rest =>
    have h1 := searchOne_eq_find norm i
    have h2 := searchF_eq_find norm rest
    simp only [searchF, visitOrderF, List.find?_append, h1, h2]
    cases (visitOrderOne i).find? (fun j => reqMatches norm j.request) <;>
      simp [Option.or]
theorem searchOne_eq_find (norm : String) (i : PItem) :
    searchOne norm i = (visitOrderOne i).find? (fun j => reqMatches norm j.request) := by
  cases i with
  | mk n cs r =>
    have h1 := searchF_eq_find norm cs
    simp only [searchOne, visitOrderOne, List.find?_append, h1]
    cases (visitOrderF cs).find? (fun j => reqMatches norm j.request) with
    | some m => simp [Option.or]
    | none =>
      simp only [Option.none_or]
      cases r with
      | none => simp [reqMatches]
      | some req =>
        by_cases hm : reqMatches norm (some req)
        · simp [hm, PItem.request]
        · simp [hm, PItem.request]
end

mutual
theorem visitF_eq_preF (f : PForest) (h : properF f = true) :
    visitOrderF f = preOrderF f := by
  cases f with
  | nil => rfl
  | cons i rest =>
    simp only [properF, Bool.and_eq_true] at h
    simp only [visitOrderF, preOrderF, visitOne_eq_preOne i h.1,
      visitF_eq_preF rest h.2]
theorem visitOne_eq_preOne (i : PItem) (h : properOne i = true) :
    visitOrderOne i = preOrderOne i := by
  cases i with
  | mk n cs r =>
    simp only [properOne, Bool.and_eq_true] at h
    obtain ⟨h1, h2⟩ := h
    cases r with
    | none =>
      simp [visitOrderOne, preOrderOne, visitF_eq_preF cs h2]
    | some req =>
      have hcs : cs = PForest.nil := by
        cases cs with
        | nil => rfl
        | cons a b => simp at h1
      subst hcs
      rfl
end

mutual
theorem collectF_eq_filter (host : String) (f : PForest) :
    collectHostF host f =
      (visitOrderF f).filter (fun j => reqHostMatches host j.request) := by
  cases f with
  | nil => rfl
  | cons i rest =>
    simp only [collectHostF, visitOrderF, List.filter_append,
      collectOne_eq_filter host i, collectF_eq_filter host rest]
theorem collectOne_eq_filter (host : String) (i : PItem) :
    collectHostOne host i =
      (visitOrderOne i).filter (fun j => reqHostMatches host j.request) := by
  cases i with
  | mk n cs r =>
    simp only [collectHostOne, visitOrderOne, List.filter_append,
      collectF_eq_filter host cs]
    congr 1
    cases r with
    | none => simp [reqHostMatches]
    | some req =>
      by_cases hm : reqHostMatches host (some req)
      · simp [hm, PItem.request]
      · simp [hm, PItem.request]
end

theorem name_mapItemReq (g : PReq → PReq) (m : PItem) :
    (mapItemReq g m).name = m.name := by
  cases m
  rfl

/-- Unfolding equation of updFirstOne (its auto-generated equations are
unavailable; the definitional one suffices). -/
theorem updFirstOne_mk (norm : String) (g : PReq → PReq) (n : String)
    (cs : PForest) (r : Option PReq) :
    updFirstOne norm g (.mk n cs r) =
      (match updFirstF norm g cs with
      | some (cs2, m) => some (.mk n cs2 r, m)
      | Option.none =>
        if reqMatches norm r then
          match r with
          | some req =>
            some (PItem.mk n cs (some (g req)), PItem.mk n cs (some (g req)))
          | Option.none => Option.none
        else Option.none) := rfl

mutual
theorem updF_spec (norm : String) (g : PReq → PReq) (f : PForest) :
    (searchF norm f = Option.none → updFirstF norm g f = Option.none) ∧
    (∀ m, searchF norm f = some m →
      ∃ f2, updFirstF norm g f = some (f2, mapItemReq g m) ∧
        leafCountF f2 = leafCountF f) := by
  cases f with
  | nil =>
    constructor
    · intro _; rfl
    · intro m hm; simp [searchF] at hm
  | cons i rest =>
    have Hi := updOne_spec norm g i
    have Hr := updF_spec norm g rest
    constructor
    · intro h
      rw [searchF] at h
      cases hs1 : searchOne norm i with
      | some m1 => rw [hs1] at h; exact absurd h (by simp)
      | none =>
        rw [hs1] at h
        rw [updFirstF, Hi.1 hs1, Hr.1 h]
    · intro m hm
      rw [searchF] at hm
      cases hs1 : searchOne norm i with
      | some m1 =>
        rw [hs1] at hm
        injection hm with hm1
        subst hm1
        obtain ⟨i2, hupd, hcount⟩ := Hi.2 m1 hs1
        refine ⟨.cons i2 rest, ?_, ?_⟩
        · rw [updFirstF, hupd]
        · simp [leafCountF, hcount]
      | none =>
        rw [hs1] at hm
        obtain ⟨rest2, hupd, hcount⟩ := Hr.2 m hm
        refine ⟨.cons i rest2, ?_, ?_⟩
        · rw [updFirstF, Hi.1 hs1, hupd]
        · simp [leafCountF, hcount]
theorem updOne_spec (norm : String) (g : PReq → PReq) (i : PItem) :
    (searchOne norm i = Option.none → updFirstOne norm g i = Option.none) ∧
    (∀ m, searchOne norm i = some m →
      ∃ i2, updFirstOne norm g i = some (i2, mapItemReq g m) ∧
        leafCountOne i2 = leafCountOne i) := by
  cases i with
  | mk n cs r =>
    have HF := updF_spec norm g cs
    constructor
    · intro h
      rw [searchOne] at h
      cases hcs : searchF norm cs with
      | some m1 => rw [hcs] at h; exact absurd h (by simp)
      | none =>
        rw [hcs] at h
        have hr : reqMatches norm r = false := by
          by_cases hb : reqMatches norm r = true
          · rw [if_pos hb] at h; exact absurd h (by simp)
          · simpa using hb
        simp [updFirstOne_mk, HF.1 hcs, hr]
    · intro m hm
      rw [searchOne] at hm
      cases hcs : searchF norm cs with
      | some m1 =>
        rw [hcs] at hm
        injection hm with hm1
        subst hm1
        obtain ⟨cs2, hupd, hcount⟩ := HF.2 m1 hcs
        refine ⟨.mk n cs2 r, ?_, ?_⟩
        · simp [updFirstOne_mk, hupd]
        · simp [leafCountOne, hcount]
      | none =>
        rw [hcs] at hm
        by_cases hb : reqMatches norm r = true
        · rw [if_pos hb] at hm
          injection hm with hm1
          subst hm1
          cases r with
          | none => simp [reqMatches] at hb
          | some req =>
            refine ⟨.mk n cs (some (g req)), ?_, ?_⟩
            · simp [updFirstOne_mk, HF.1 hcs, hb, mapItemReq]
            · simp [leafCountOne]
        · rw [if_neg hb] at hm
          exact absurd hm (by simp)
end

/-! ## Claim theorems: classifier and normalizer -/

/-- Claim C1: the classifier returns exactly one descriptor, scanning
headers in capture order with first match winning per the section 4.1
rule precedence (the per-header rule list classifyHeader with a
first-some scan), and the two cited examples hold. -/
theorem claim_C1 :
    (∀ hs : List RequestHeader, detectAuthType hs = detectAuthTypeSpec hs) ∧
    detectAuthType [{ key := "Authorization", value := "Bearer abc123" },
      { key := "X-Api-Key", value := "k" }] =
      { type := AuthType.bearer, value := some "abc123" } ∧
    detectAuthType [{ key := "X-Api-Key", value := "k" }] =
      { type := AuthType.apikey, value := some "k" } := by
  refine ⟨?_, by decide, by decide⟩
  intro hs
  induction hs with
  | nil => rfl
  | cons h t ih =>
    simp only [detectAuthType, detectAuthTypeSpec, classifyHeader, List.findSome?_cons]
    split_ifs <;> simp_all [detectAuthTypeSpec]

/-- Claim C2 (amended): normalizeUrl of a parseable URL transforms only
the pathname (query, fragment and host discarded) by the four rules in
order, each rule replacing a slash-anchored maximal run of its shape
(not a whole segment: a mixed segment such as 123abc becomes :idabc);
an unparseable URL is returned unchanged and the function is total.
The first two cited examples hold as stated; in the third the
8-character segment products is itself replaced by the 8-or-more rule,
so the result is /api/:id/:id. -/
theorem claim_C2 :
    (∀ u, parseUrl u = Option.none → normalizeUrl u = u) ∧
    (∀ u p, parseUrl u = some p → normalizeUrl u = applyRules p.pathname) ∧
    normalizeUrl "https://example.com/api/users/123" = "/api/users/:id" ∧
    normalizeUrl "https://example.com/api/users/123?page=2#top" = "/api/users/:id" ∧
    normalizeUrl "https://example.com/api/users/abc-123-def/posts/456" =
      "/api/users/:id/posts/:id" ∧
    normalizeUrl "https://example.com/api/products/550e8400-e29b-41d4-a716-446655440000" =
      "/api/:id/:id" ∧
    normalizeUrl "https://h/123abc" = "/:idabc" :=
  ⟨norm_parse_none, norm_parse_some, by decide, by decide, by decide, by decide, by decide⟩

/-- Claim C2, the two discrepancies: the third cited example does not
hold on the code (products, having exactly 8 characters, is replaced),
and the code differs from the whole-segment reading of the four rules
(normalizeUrlSegSpec) on a mixed segment. -/
theorem claim_C2_counterexample :
    normalizeUrl "https://example.com/api/products/550e8400-e29b-41d4-a716-446655440000" ≠
      "/api/products/:id" ∧
    normalizeUrl "https://h/123abc" ≠ normalizeUrlSegSpec "https://h/123abc" :=
  ⟨by decide, by decide⟩

/-- Claim C2, witness: the amended theorem applied at one unparseable
and one parseable input. -/
theorem claim_C2_witness :
    normalizeUrl "/api/users/123" = "/api/users/123" ∧
    normalizeUrl "https://example.com/items" =
      applyRules (UrlParts.pathname { scheme := "https", host := "example.com", pathname := "/items" }) :=
  ⟨claim_C2.1 "/api/users/123" (by decide),
   claim_C2.2.1 "https://example.com/items"
     { scheme := "https", host := "example.com", pathname := "/items" } (by decide)⟩

/-- Claim C3 (amended): normalization is idempotent for every input
that does not parse (returned unchanged) and for every input with a
special scheme, in particular every http or https URL, because the
extracted pathname starts with a slash and can never itself parse as a
URL.  (For an exotic non-special opaque-path input the extracted path
can parse again, and idempotence can fail, see the counterexample.) -/
theorem claim_C3 : ∀ u : String,
    (parseUrl u = Option.none ∨
      (∃ p, parseUrl u = some p ∧ specialSchemes.contains p.scheme = true)) →
    normalizeUrl (normalizeUrl u) = normalizeUrl u := by
  intro u h
  rcases h with hn | ⟨p, hp, hsc⟩
  · rw [norm_parse_none u hn, norm_parse_none u hn]
  · obtain ⟨sc, ac, hps⟩ := parseUrl_cases u p hp
    have hsc2 : specialSchemes.contains sc = true := by
      rw [← parseAfterScheme_scheme sc ac p hps]
      exact hsc
    obtain ⟨t, hpath⟩ := parseAfterScheme_special_slash sc ac p hps hsc2
    rw [norm_parse_some u p hp]
    obtain ⟨t2, h2⟩ := applyRules_slash p.pathname t hpath
    exact norm_parse_none _ (parseUrl_head_slash_none _ t2 h2)

/-- Claim C3 does not hold for every string: an opaque-path input whose
extracted path itself parses as a URL moves again under a second
normalization. -/
theorem claim_C3_counterexample :
    normalizeUrl (normalizeUrl "a:b:c") ≠ normalizeUrl "a:b:c" := by
  decide

/-- Claim C3, witness: idempotence at an https URL, by the amended
theorem. -/
theorem claim_C3_witness :
    normalizeUrl (normalizeUrl "https://example.com/api/users/123") =
      normalizeUrl "https://example.com/api/users/123" :=
  claim_C3 "https://example.com/api/users/123"
    (Or.inr ⟨{ scheme := "https", host := "example.com", pathname := "/api/users/123" },
      by decide, by decide⟩)

/-! ## Supporting lemmas: buffer and session -/

theorem take_append_take {α : Type} : ∀ (xs ys : List α) (n m : Nat), n ≤ m →
    (xs ++ ys.take m).take n = (xs ++ ys).take n := by
  intro xs
  induction xs with
  | nil =>
    intro ys n m h
    simp [List.take_take, Nat.min_eq_left h]
  | cons a xs ih =>
    intro ys n m h
    cases n with
    | zero => simp
    | succ k =>
      simp only [List.cons_append, List.take_succ_cons]
      rw [ih ys k m (Nat.le_of_succ_le h)]

theorem pushEvict_take (r : CapturedRequest) (buf : List CapturedRequest)
    (h : buf.length ≤ MAX_REQUESTS) :
    pushEvict r buf = (r :: buf).take MAX_REQUESTS := by
  unfold pushEvict
  dsimp only
  by_cases hl : MAX_REQUESTS < (r :: buf).length
  · rw [if_pos hl, List.dropLast_eq_take]
    congr 1
    simp only [List.length_cons] at hl ⊢
    omega
  · rw [if_neg hl, List.take_of_length_le (Nat.le_of_not_lt hl)]

theorem stepEvent_buffer (e : CapturedRequest × Bool) (s : SysState) :
    (stepEvent s e).buffer = pushEvict e.1 s.buffer := rfl

theorem fold_buffer : ∀ (evs : List (CapturedRequest × Bool)) (s : SysState),
    s.buffer.length ≤ MAX_REQUESTS →
    (evs.foldl stepEvent s).buffer =
      ((evs.map Prod.fst).reverse ++ s.buffer).take MAX_REQUESTS := by
  intro evs
  induction evs with
  | nil =>
    intro s h
    simp [List.take_of_length_le h]
  | cons e evs ih =>
    intro s h
    have hpe : pushEvict e.1 s.buffer = (e.1 :: s.buffer).take MAX_REQUESTS :=
      pushEvict_take e.1 s.buffer h
    have hlen : (stepEvent s e).buffer.length ≤ MAX_REQUESTS := by
      rw [stepEvent_buffer, hpe, List.length_take]
      exact Nat.min_le_left _ _
    rw [List.foldl_cons, ih _ hlen, stepEvent_buffer, hpe,
      take_append_take _ _ MAX_REQUESTS MAX_REQUESTS (Nat.le_refl _)]
    simp [List.append_assoc]

theorem fold_session (h : String) : ∀ (evs : List (CapturedRequest × Bool)) (s : SysState),
    s.cap.isCapturing = true → s.cap.targetHost = some h →
    (evs.foldl stepEvent s).cap.capturedCount =
        s.cap.capturedCount + (evs.filter (matchesTargetHost h)).length ∧
      (evs.foldl stepEvent s).cap.syncedCount =
        s.cap.syncedCount + (evs.filter (fun e => matchesTargetHost h e && e.2)).length ∧
      (evs.foldl stepEvent s).cap.isCapturing = true ∧
      (evs.foldl stepEvent s).cap.targetHost = some h := by
  intro evs
  induction evs with
  | nil =>
    intro s h1 h2
    simp [h1, h2]
  | cons e evs ih =>
    intro s h1 h2
    rw [List.foldl_cons]
    cases hp : parseUrl e.1.url with
    | none =>
      have hcap : (stepEvent s e).cap = s.cap := by
        simp [stepEvent, recordRequest, hp]
      have hmt : matchesTargetHost h e = false := by
        simp [matchesTargetHost, hp]
      obtain ⟨c1, c2, c3, c4⟩ :=
        ih (stepEvent s e) (by rw [hcap]; exact h1) (by rw [hcap]; exact h2)
      rw [hcap] at c1 c2
      refine ⟨?_, ?_, c3, c4⟩
      · rw [c1, List.filter_cons, hmt]
        simp
      · rw [c2, List.filter_cons]
        simp [hmt]
    | some p =>
      by_cases hh : p.host = h
      · have hcond : (s.cap.isCapturing && (s.cap.targetHost == some p.host)) = true := by
          simp [h1, h2, hh]
        have hcap : (stepEvent s e).cap =
            { s.cap with
              capturedCount := s.cap.capturedCount + 1
              syncedCount := s.cap.syncedCount + e.2.toNat } := by
          simp only [stepEvent, recordRequest, hp, hcond, incrementSyncedCount]
          cases e.2 <;> simp
        have hmt : matchesTargetHost h e = true := by
          simp [matchesTargetHost, hp, hh]
        obtain ⟨c1, c2, c3, c4⟩ :=
          ih (stepEvent s e) (by rw [hcap]; exact h1) (by rw [hcap]; exact h2)
        rw [hcap] at c1 c2
        dsimp only at c1 c2
        refine ⟨?_, ?_, c3, c4⟩
        · have hfilt : (e :: evs).filter (matchesTargetHost h) =
              e :: evs.filter (matchesTargetHost h) := by
            simp [List.filter_cons, hmt]
          rw [hfilt, c1, List.length_cons]
          omega
        · cases he2 : e.2 with
          | true =>
            rw [he2] at c2
            simp only [Bool.toNat_true] at c2
            have hfilt : (e :: evs).filter (fun x => matchesTargetHost h x && x.2) =
                e :: evs.filter (fun x => matchesTargetHost h x && x.2) := by
              simp [List.filter_cons, hmt, he2]
            rw [hfilt, c2, List.length_cons]
            omega
          | false =>
            rw [he2] at c2
            simp only [Bool.toNat_false] at c2
            have hfilt : (e :: evs).filter (fun x => matchesTargetHost h x && x.2) =
                evs.filter (fun x => matchesTargetHost h x && x.2) := by
              simp [List.filter_cons, hmt, he2]
            rw [hfilt, c2]
            omega
      · have hcond : (s.cap.isCapturing && (s.cap.targetHost == some p.host)) = false := by
          simp [h1, h2]
          exact fun hc => absurd hc.symm hh
        have hcap : (stepEvent s e).cap = s.cap := by
          simp [stepEvent, recordRequest, hp, hcond]
        have hmt : matchesTargetHost h e = false := by
          simp [matchesTargetHost, hp]
          exact hh
        obtain ⟨c1, c2, c3, c4⟩ :=
          ih (stepEvent s e) (by rw [hcap]; exact h1) (by rw [hcap]; exact h2)
        rw [hcap] at c1 c2
        refine ⟨?_, ?_, c3, c4⟩
        · rw [c1, List.filter_cons, hmt]
          simp
        · rw [c2, List.filter_cons]
          simp [hmt]

/-! ## Claim theorems: matcher, orchestrator, buffer, session -/

/-- Claim C4: on every well-formed remote document tree (the spec's
data model: a node is a folder or a leaf, never both) the pattern-only
matcher returns the first request leaf, in depth-first pre-order over
the tree's child order, whose normalized URL equals the normalized
captured URL, and none otherwise; unextractable-URL leaves are skipped
without aborting.  The cited concrete examples also hold: the items/42
leaf is found from captured items/99 through a folder, a differing
method yields no match in the method-aware mode, and a broken leaf
before the match does not abort the search. -/
theorem claim_C4 :
    (∀ (u : String) (f : PForest), properF f = true →
      findMatchingRequest u f =
        (preOrderF f).find? (fun j => reqMatches (normalizeUrl u) j.request)) ∧
    findMatchingRequest "https://api.x.com/items/99" exTreeC4 = some exLeaf42 ∧
    findMatchingRequestWithMethod "https://api.x.com/items/99" "POST" exTreeC4 =
      Option.none ∧
    findMatchingRequest "https://api.x.com/items/99" exTreeBad = some exLeaf42 := by
  refine ⟨?_, by decide, by decide, by decide⟩
  intro u f h
  unfold findMatchingRequest
  rw [searchF_eq_find, visitF_eq_preF f h]

/-- Claim C4, witness: the traversal characterization applied to the
concrete folder tree. -/
theorem claim_C4_witness :
    findMatchingRequest "https://api.x.com/items/99" exTreeC4 =
      (preOrderF exTreeC4).find?
        (fun j => reqMatches (normalizeUrl "https://api.x.com/items/99") j.request) :=
  claim_C4.1 "https://api.x.com/items/99" exTreeC4 (by decide)

/-- Claim C5: the buffer holds at most 100 entries; recording any event
sequence into an empty buffer leaves exactly the most recent 100 in
newest-first order (the oldest beyond 100 evicted), and recording 150
leaves exactly 100. -/
theorem claim_C5 :
    (∀ (r : CapturedRequest) (buf : List CapturedRequest),
      buf.length ≤ MAX_REQUESTS → (pushEvict r buf).length ≤ MAX_REQUESTS) ∧
    (∀ (evs : List (CapturedRequest × Bool)) (cap0 : CaptureState),
      (evs.foldl stepEvent { buffer := [], cap := cap0 }).buffer =
        (evs.map Prod.fst).reverse.take MAX_REQUESTS) ∧
    (∀ (evs : List (CapturedRequest × Bool)) (cap0 : CaptureState),
      evs.length = 150 →
      (evs.foldl stepEvent { buffer := [], cap := cap0 }).buffer.length = MAX_REQUESTS) := by
  refine ⟨?_, ?_, ?_⟩
  · intro r buf h
    rw [pushEvict_take r buf h, List.length_take]
    exact Nat.min_le_left _ _
  · intro evs cap0
    have := fold_buffer evs { buffer := [], cap := cap0 } (by simp)
    simpa using this
  · intro evs cap0 hlen
    have := fold_buffer evs { buffer := [], cap := cap0 } (by simp)
    simp only [List.append_nil] at this
    rw [this, List.length_take]
    simp [hlen, MAX_REQUESTS]

/-- Claim C5, witness: recording the concrete 150-event sequence leaves
a buffer of exactly 100. -/
theorem claim_C5_witness :
    (evs150.foldl stepEvent { buffer := [], cap := idleCapture }).buffer.length =
      MAX_REQUESTS :=
  claim_C5.2.2 evs150 idleCapture (by decide)

/-- Claim C6: update-by-match performs no remote write and fails with
the no-matching-request error when the pattern-only match finds no
leaf (never creating one); on a match it performs exactly one write of
the document in which exactly the matched node's request has its
Authorization header value replaced in place (or inserted), the leaf
count is unchanged, and the result carries the matched leaf's name.
A present bearer credential is re-prefixed with Bearer and any other
present credential is written raw. -/
theorem claim_C6 : ∀ (r : CapturedRequest) (fetched : PForest),
    (findMatchingRequest r.url fetched = Option.none →
      updateTokenInCollection r fetched =
        ([], Except.error "No matching request found in collection. The URL pattern does not match any existing requests.")) ∧
    (∀ m, findMatchingRequest r.url fetched = some m →
      ∃ doc, updateTokenInCollection r fetched = ([doc], Except.ok m.name) ∧
        updFirstF (normalizeUrl r.url)
          (setAuthOnReq (newAuthValue r.authType r.authValue)) fetched =
          some (doc, mapItemReq (setAuthOnReq (newAuthValue r.authType r.authValue)) m) ∧
        leafCountF doc = leafCountF fetched) ∧
    (∀ (t : AuthType) (v : String),
      newAuthValue t (some v) = if t = AuthType.bearer then "Bearer " ++ v else v) := by
  intro r fetched
  refine ⟨?_, ?_, ?_⟩
  · intro hnone
    have h2 := (updF_spec (normalizeUrl r.url)
      (setAuthOnReq (newAuthValue r.authType r.authValue)) fetched).1 hnone
    unfold updateTokenInCollection
    dsimp only
    rw [h2]
  · intro m hm
    obtain ⟨f2, hupd, hcount⟩ := (updF_spec (normalizeUrl r.url)
      (setAuthOnReq (newAuthValue r.authType r.authValue)) fetched).2 m hm
    refine ⟨f2, ?_, hupd, hcount⟩
    unfold updateTokenInCollection
    dsimp only
    rw [hupd]
    dsimp only
    rw [name_mapItemReq]
  · intro t v
    unfold newAuthValue
    by_cases ht : t = AuthType.bearer
    · simp [ht]
    · simp [ht]

/-- Claim C6, witness: the matched branch applied to the one-leaf
document and a bearer capture with credential tok123. -/
theorem claim_C6_witness :
    ∃ doc, updateTokenInCollection reqC6 exTreeC6 =
        ([doc], Except.ok exLeafAuth.name) ∧
      updFirstF (normalizeUrl reqC6.url)
        (setAuthOnReq (newAuthValue reqC6.authType reqC6.authValue)) exTreeC6 =
        some (doc, mapItemReq
          (setAuthOnReq (newAuthValue reqC6.authType reqC6.authValue)) exLeafAuth) ∧
      leafCountF doc = leafCountF exTreeC6 :=
  (claim_C6 reqC6 exTreeC6).2.1 exLeafAuth (by decide)

/-- Claim C7: bulk host rotation fails without a write when no leaf has
the target host; otherwise it performs exactly one write of the
document in which every leaf whose URL host equals the target host has
its Authorization header set (bearer re-prefixed), reporting the count
and names of the updated leaves; the collected leaves are exactly the
visit-ordered leaves whose host matches.  On the cited 3-against-1
document the rotation updates exactly the three api.h.com leaves in a
single write and reports updatedCount 3. -/
theorem claim_C7 : (∀ (host av : String) (t : AuthType) (fetched : PForest),
    (findAllRequestsForHost host fetched = [] →
      updateTokenForHost host av t fetched =
        ([], Except.error
          ("No requests found for host \"" ++ host ++ "\" in this collection."))) ∧
    (findAllRequestsForHost host fetched ≠ [] →
      updateTokenForHost host av t fetched =
        ([updHostF host
            (setAuthOnReq (if t = AuthType.bearer then "Bearer " ++ av else av)) fetched],
          Except.ok
            { updatedCount := (findAllRequestsForHost host fetched).length,
              totalMatched := (findAllRequestsForHost host fetched).length,
              requestNames := (findAllRequestsForHost host fetched).map PItem.name })) ∧
    (findAllRequestsForHost host fetched =
      (visitOrderF fetched).filter (fun j => reqHostMatches host j.request))) ∧
    updateTokenForHost "api.h.com" "tok" AuthType.bearer exBulkTree =
      ([exBulkTreeUpd],
        Except.ok { updatedCount := 3, totalMatched := 3,
                    requestNames := ["h1", "h2", "h3"] }) := by
  refine ⟨?_, rfl⟩
  intro host av t fetched
  refine ⟨?_, ?_, collectF_eq_filter host fetched⟩
  · intro hempty
    unfold updateTokenForHost
    rw [hempty]
    rfl
  · intro hne
    unfold updateTokenForHost
    dsimp only
    rw [if_neg (by simpa [List.isEmpty_iff] using hne)]

/-- Claim C7, witness: the empty-match branch applied to the empty
document. -/
theorem claim_C7_witness :
    updateTokenForHost "api.h.com" "tok" AuthType.bearer PForest.nil =
      ([], Except.error
        ("No requests found for host \"" ++ "api.h.com" ++ "\" in this collection.")) :=
  (claim_C7.1 "api.h.com" "tok" AuthType.bearer PForest.nil).1 (by decide)

/-- Claim C8: while a session armed for host H is active, every
buffered request whose URL host equals H increments capturedCount and
each successful sync increments syncedCount; stopping returns a
snapshot with exactly those counts and resets the session to idle; on
the cited scenario of three matching captures of which two sync, the
snapshot reads capturedCount 3 and syncedCount 2. -/
theorem claim_C8 :
    (∀ (h c : String) (evs : List (CapturedRequest × Bool))
        (buf0 : List CapturedRequest),
      (stopCapture ((evs.foldl stepEvent
          { buffer := buf0, cap := startCapture h c }).cap)).1.capturedCount =
        (evs.filter (matchesTargetHost h)).length ∧
      (stopCapture ((evs.foldl stepEvent
          { buffer := buf0, cap := startCapture h c }).cap)).1.syncedCount =
        (evs.filter (fun e => matchesTargetHost h e && e.2)).length ∧
      (stopCapture ((evs.foldl stepEvent
          { buffer := buf0, cap := startCapture h c }).cap)).2 = idleCapture) ∧
    (stopCapture ((exEvsC8.foldl stepEvent
        { buffer := [], cap := startCapture "api.h.com" "col1" }).cap)).1.capturedCount = 3 ∧
    (stopCapture ((exEvsC8.foldl stepEvent
        { buffer := [], cap := startCapture "api.h.com" "col1" }).cap)).1.syncedCount = 2 := by
  refine ⟨?_, by decide, by decide⟩
  intro h c evs buf0
  obtain ⟨c1, c2, _, _⟩ :=
    fold_session h evs { buffer := buf0, cap := startCapture h c } rfl rfl
  exact ⟨by simpa [stopCapture, startCapture] using c1,
    by simpa [stopCapture, startCapture] using c2, rfl⟩

/-- Claim C9: in the pattern-and-method search a leaf that states no
method is treated as GET: any captured method upper-casing to GET
matches it whenever the URL patterns agree. -/
theorem claim_C9 :
    effMethod Option.none = "GET" ∧
    (∀ (cu m nm : String) (hs : List RequestHeader) (u : PUrl),
      upperStr m = "GET" →
      normalizeUrl (extractPostmanUrl u) = normalizeUrl cu →
      findMatchingRequestWithMethod cu m
          (.cons (.mk nm .nil
            (some { method := Option.none, header := hs, url := some u })) .nil) =
        some (.mk nm .nil
          (some { method := Option.none, header := hs, url := some u }))) := by
  refine ⟨rfl, ?_⟩
  intro cu m nm hs u hm hn
  unfold findMatchingRequestWithMethod
  rw [hm]
  have hmm : reqMatchesM (normalizeUrl cu) "GET"
      (some { method := Option.none, header := hs, url := some u }) = true := by
    simp [reqMatchesM, effMethod, hn]
  simp [searchMF, searchMOne, hmm]

/-- Claim C9, witness: a lower-case get capture matches a method-less
leaf with the same pattern. -/
theorem claim_C9_witness :
    findMatchingRequestWithMethod "https://api.x.com/items/5" "get"
        (.cons (.mk "n" .nil
          (some { method := Option.none
                  header := []
                  url := some (.str "https://api.x.com/items/9") })) .nil) =
      some (.mk "n" .nil
        (some { method := Option.none
                header := []
                url := some (.str "https://api.x.com/items/9") })) :=
  claim_C9.2 "https://api.x.com/items/5" "get" "n" []
    (.str "https://api.x.com/items/9") (by decide) (by decide)

/-- Claim C10 as stated fails on a bearer descriptor with an absent
credential: the JS template literal stringifies the absent value, so
the header is written as the literal text Bearer undefined, not the
empty string. -/
theorem claim_C10_counterexample :
    updateTokenInCollection reqBearerAbsent exTreeC6 =
      ([PForest.cons (PItem.mk "Get user" PForest.nil
          (some { method := some "GET",
                  header := [{ key := "authorization", value := "Bearer undefined" }],
                  url := some (.str "https://api.x.com/users/42") })) PForest.nil],
        Except.ok "Get user") ∧
    "Bearer undefined" ≠ "" := by
  exact ⟨rfl, by decide⟩

/-- Claim C10 (amended): update-by-match needs no credential — for a
captured request whose descriptor is not bearer and whose credential is
absent (in particular descriptor none), a found match still leads to
the single remote write, with the matched leaf's Authorization header
value set to the empty string (inserted when absent). -/
theorem claim_C10 : ∀ (r : CapturedRequest) (fetched : PForest) (m : PItem),
    r.authType ≠ AuthType.bearer → r.authValue = Option.none →
    findMatchingRequest r.url fetched = some m →
    ∃ doc, updateTokenInCollection r fetched = ([doc], Except.ok m.name) ∧
      updFirstF (normalizeUrl r.url) (setAuthOnReq "") fetched =
        some (doc, mapItemReq (setAuthOnReq "") m) := by
  intro r fetched m hb hv hfind
  have hnav : newAuthValue r.authType r.authValue = "" := by
    unfold newAuthValue
    rw [if_neg hb, hv]
  obtain ⟨f2, hupd, _⟩ :=
    (updF_spec (normalizeUrl r.url) (setAuthOnReq "") fetched).2 m hfind
  refine ⟨f2, ?_, hupd⟩
  unfold updateTokenInCollection
  dsimp only
  rw [hnav, hupd]
  dsimp only
  rw [name_mapItemReq]

/-- Claim C10, witness: the amended theorem applied to a descriptor
none capture with absent credential against the one-leaf document. -/
theorem claim_C10_witness :
    ∃ doc, updateTokenInCollection reqNoneAbsent exTreeC6 =
        ([doc], Except.ok exLeafAuth.name) ∧
      updFirstF (normalizeUrl reqNoneAbsent.url) (setAuthOnReq "") exTreeC6 =
        some (doc, mapItemReq (setAuthOnReq "") exLeafAuth) :=
  claim_C10 reqNoneAbsent exTreeC6 exLeafAuth (by decide) (by decide) (by decide)

end PostSnap
